import Mathlib

/-!
Verification of the AnimalRescuer scraping pipeline.

This file gives a shallow embedding, in Lean 4, of the pure logic of the
three Python source files of the repository

  * `gofundme_scraper_show_more.py` (URL discovery loop, field extraction,
    age normalisation over page text),
  * `gofundme_scraper.py` (requests/BeautifulSoup variant: description
    extraction from JSON-LD, ISO-8601 based day-difference computation),
  * `image_analyzer.py` (enrichment adapter over an external classifier),

and proves or refutes the behavioural claims stated about them.  External
capabilities (the browser, the HTTP session, the vision service, the HTML
parser) are taken at their interface: their outputs are parameters of the
embedded functions.  Python strings are modelled as `List Char` where
character-level reasoning is needed and as `String` elsewhere; Python
`int` is `Int`/`Nat`; the fallible paths return the same defaults the
`except` clauses install.
-/

namespace AnimalRescuer

/-! ## URL canonicalisation (`extract_visible_urls`, lines 86-104)

A raw `href` is canonicalised by `href.split('?')[0].rstrip('/')`:
everything from the first `'?'` on is removed, then every trailing `'/'`
is removed. -/

/-- `s.split('?')[0]` on the character list: the prefix before the first
`'?'` (the whole list when no `'?'` occurs). -/
def beforeQuery (cs : List Char) : List Char :=
  cs.takeWhile (fun c => c ≠ '?')

/-- `s.rstrip('/')` on the character list: drop every trailing `'/'`. -/
def rstripSlash (cs : List Char) : List Char :=
  (cs.reverse.dropWhile (fun c => c = '/')).reverse

/-- The canonical form of an `href`, as computed at line 96 of
`gofundme_scraper_show_more.py`: `href.split('?')[0].rstrip('/')`. -/
def canonicalize (u : String) : String :=
  String.mk (rstripSlash (beforeQuery u.data))

lemma beforeQuery_no_query (cs : List Char) (h : '?' ∉ cs) :
    beforeQuery cs = cs := by
  simp only [beforeQuery]
  apply List.takeWhile_eq_self_iff.mpr
  intro c hc
  simp only [ne_eq, decide_eq_true_eq]
  intro hcq
  exact h (hcq ▸ hc)

lemma beforeQuery_no_query_mem (cs : List Char) : '?' ∉ beforeQuery cs := by
  intro h
  have := List.mem_takeWhile_imp h
  simp at this

lemma dropWhile_head_not (p : Char → Bool) (l : List Char) (a : Char)
    (t : List Char) (h : l.dropWhile p = a :: t) : p a = false := by
  induction l with
  | nil => simp at h
  | cons b l ih =>
      rw [List.dropWhile_cons] at h
      by_cases hb : p b
      · rw [if_pos hb] at h; exact ih h
      · rw [if_neg hb] at h
        cases h
        exact Bool.not_eq_true _ ▸ (by simpa using hb)

lemma rstripSlash_no_trailing (cs : List Char)
    (h : cs.getLast? ≠ some '/') : rstripSlash cs = cs := by
  simp only [rstripSlash]
  have : cs.reverse.dropWhile (fun c => c = '/') = cs.reverse := by
    cases hrev : cs.reverse with
    | nil => simp
    | cons a t =>
        rw [List.dropWhile_cons]
        have ha : ¬ (a = '/') := by
          intro hE
          apply h
          have hcs : cs = (a :: t).reverse := by
            rw [← hrev]; simp
          rw [hcs, List.getLast?_reverse, hE]
          simp
        simp [ha]
  rw [this, List.reverse_reverse]

lemma rstripSlash_append_slash (cs : List Char)
    (h : cs.getLast? ≠ some '/') : rstripSlash (cs ++ ['/']) = cs := by
  simp only [rstripSlash, List.reverse_append]
  have hstep : (['/'].reverse ++ cs.reverse).dropWhile (fun c => c = '/')
      = cs.reverse.dropWhile (fun c => c = '/') := by
    simp [List.dropWhile_cons]
  rw [hstep]
  have : cs.reverse.dropWhile (fun c => c = '/') = cs.reverse := by
    have h1 := rstripSlash_no_trailing cs h
    simp only [rstripSlash] at h1
    have h2 := congrArg List.reverse h1
    rwa [List.reverse_reverse] at h2
  rw [this, List.reverse_reverse]

lemma rstripSlash_getLast? (cs : List Char) :
    (rstripSlash cs).getLast? ≠ some '/' := by
  simp only [rstripSlash]
  intro h
  rw [List.getLast?_reverse] at h
  cases hd : cs.reverse.dropWhile (fun c => c = '/') with
  | nil => rw [hd] at h; simp at h
  | cons a t =>
      rw [hd] at h
      simp only [List.head?_cons, Option.some.injEq] at h
      have := dropWhile_head_not (fun c => c = '/') cs.reverse a t hd
      rw [h] at this
      simp at this

lemma rstripSlash_subset (cs : List Char) : rstripSlash cs ⊆ cs := by
  intro c hc
  simp only [rstripSlash, List.mem_reverse] at hc
  exact List.mem_reverse.mp ((List.dropWhile_suffix _).subset hc)

lemma canonicalize_data (u : String) :
    (canonicalize u).data = rstripSlash (beforeQuery u.data) := rfl

lemma beforeQuery_append (xs ys : List Char) (h : '?' ∉ xs) :
    beforeQuery (xs ++ ys) = xs ++ beforeQuery ys := by
  have hx : beforeQuery xs = xs := beforeQuery_no_query xs h
  simp only [beforeQuery] at hx ⊢
  rw [List.takeWhile_append, hx]
  simp

/-- Claim C6: canonicalization (strip query string, then strip trailing
slash) is idempotent, and for every well-formed URL `u` with no query
string (no `'?'` character) and no trailing slash,
`canonicalize u = canonicalize (u ++ "?x=1") = canonicalize (u ++ "/") = u`. -/
theorem canonicalize_collapses_variants (u v : String)
    (hq : '?' ∉ u.data) (hs : u.data.getLast? ≠ some '/') :
    canonicalize u = u
    ∧ canonicalize (u ++ "?x=1") = u
    ∧ canonicalize (u ++ "/") = u
    ∧ canonicalize (canonicalize v) = canonicalize v := by
  refine ⟨?_, ?_, ?_, ?_⟩
  · show String.mk (rstripSlash (beforeQuery u.data)) = u
    rw [beforeQuery_no_query u.data hq, rstripSlash_no_trailing u.data hs]
  · show String.mk (rstripSlash (beforeQuery (u ++ "?x=1").data)) = u
    rw [String.data_append]
    rw [beforeQuery_append u.data "?x=1".data hq]
    have hempty : beforeQuery "?x=1".data = [] := rfl
    rw [hempty, List.append_nil, rstripSlash_no_trailing u.data hs]
  · show String.mk (rstripSlash (beforeQuery (u ++ "/").data)) = u
    rw [String.data_append]
    have hq2 : '?' ∉ u.data ++ "/".data := by
      intro hmem
      rcases List.mem_append.mp hmem with h1 | h1
      · exact hq h1
      · simp at h1
    rw [beforeQuery_no_query _ hq2]
    show String.mk (rstripSlash (u.data ++ ['/'])) = u
    rw [rstripSlash_append_slash u.data hs]
  · show String.mk (rstripSlash (beforeQuery (canonicalize v).data))
        = canonicalize v
    rw [canonicalize_data]
    have hq3 : '?' ∉ rstripSlash (beforeQuery v.data) := by
      intro hmem
      exact beforeQuery_no_query_mem v.data (rstripSlash_subset _ hmem)
    rw [beforeQuery_no_query _ hq3,
      rstripSlash_no_trailing _ (rstripSlash_getLast? _)]
    rfl

/-- Witness for C6 at the concrete URL
`https://www.gofundme.com/f/help-max`. -/
theorem canonicalize_collapses_variants_witness :
    canonicalize "https://www.gofundme.com/f/help-max"
        = "https://www.gofundme.com/f/help-max"
    ∧ canonicalize ("https://www.gofundme.com/f/help-max" ++ "?x=1")
        = "https://www.gofundme.com/f/help-max"
    ∧ canonicalize ("https://www.gofundme.com/f/help-max" ++ "/")
        = "https://www.gofundme.com/f/help-max"
    ∧ canonicalize (canonicalize "https://www.gofundme.com/f/help-max/")
        = canonicalize "https://www.gofundme.com/f/help-max/" :=
  canonicalize_collapses_variants "https://www.gofundme.com/f/help-max"
    "https://www.gofundme.com/f/help-max/" (by decide) (by decide)

/-! ## Discovery loop (`collect_all_urls`, lines 106-177)

The loop state is `(attempts, no_new_count, campaign_urls)`.  The listing
surface is abstracted as `visible : Nat → List String`, giving the value
of `extract_visible_urls()` at each attempt.  The Python `set` of
collected URLs is modelled as the list of its elements in insertion
order; the loop itself reads the set only through membership and size,
which are independent of that order (enumeration order is treated
separately, see `IsSetEnum` below). -/

inductive LoopOutcome
  | capped
  | exhausted
  | budget
  deriving DecidableEq, Repr

/-- `new_urls = [u for u in visible_urls if u not in self.campaign_urls]`
(line 132). -/
def newUrls (frontier visible : List String) : List String :=
  visible.filter (fun u => decide (u ∉ frontier))

/-- `self.campaign_urls.add(u)` (line 140). -/
def setAdd (frontier : List String) (u : String) : List String :=
  if u ∈ frontier then frontier else frontier ++ [u]

/-- `for u in new_urls: self.campaign_urls.add(u)` (lines 139-140). -/
def addAll (frontier new : List String) : List String :=
  new.foldl setAdd frontier

/-- One execution of `while len(self.campaign_urls) < max_campaigns and
attempts <= 100` (lines 129-165).  The fuel argument counts the attempts
still admitted by `attempts <= 100`; running out of fuel is the
while-condition exit on the attempt budget (`LoopOutcome.budget`).
Within the body: new URLs are added, the stagnation counter is reset or
incremented, then `len >= max_campaigns` breaks (`capped`, line 148)
before `no_new_count >= 3` breaks (`exhausted`, line 152). -/
def collectLoop (visible : Nat → List String) (maxCampaigns : Nat) :
    Nat → Nat → Nat → List String → List String × LoopOutcome
  | 0, _, _, frontier => (frontier, LoopOutcome.budget)
  | fuel + 1, attempts, noNewCount, frontier =>
    if maxCampaigns ≤ frontier.length then (frontier, LoopOutcome.capped)
    else
      let new := newUrls frontier (visible attempts)
      let frontier2 := addAll frontier new
      let noNew2 := if new.isEmpty then noNewCount + 1 else 0
      if maxCampaigns ≤ frontier2.length then (frontier2, LoopOutcome.capped)
      else if 3 ≤ noNew2 then (frontier2, LoopOutcome.exhausted)
      else collectLoop visible maxCampaigns fuel (attempts + 1) noNew2 frontier2

/-- `collect_all_urls(max_campaigns)`: the loop started from an empty set,
`attempts = 0`, `no_new_count = 0`, with the 101 attempts admitted by
`attempts <= 100`. -/
def collect_all_urls (visible : Nat → List String) (maxCampaigns : Nat) :
    List String × LoopOutcome :=
  collectLoop visible maxCampaigns 101 0 0 []

lemma addAll_nil (frontier : List String) : addAll frontier [] = frontier := rfl

lemma mem_addAll_of_mem_left (frontier new : List String) (u : String)
    (h : u ∈ frontier) : u ∈ addAll frontier new := by
  induction new generalizing frontier with
  | nil => exact h
  | cons v new ih =>
      show u ∈ addAll (setAdd frontier v) new
      apply ih
      simp only [setAdd]
      split
      · exact h
      · exact List.mem_append_left _ h

lemma subset_addAll (frontier new : List String) : new ⊆ addAll frontier new := by
  intro u hu
  induction new generalizing frontier with
  | nil => simp at hu
  | cons v new ih =>
      show u ∈ addAll (setAdd frontier v) new
      rcases List.mem_cons.mp hu with h | h
      · apply mem_addAll_of_mem_left
        simp only [setAdd, h]
        split
        · assumption
        · exact List.mem_append_right _ (List.mem_singleton.mpr rfl)
      · exact ih (setAdd frontier v) h

lemma dedup_length_le_addAll (frontier new : List String) :
    new.dedup.length ≤ (addAll frontier new).length := by
  apply List.Subperm.length_le
  apply List.Nodup.subperm (List.nodup_dedup new)
  intro u hu
  exact subset_addAll frontier new (List.mem_dedup.mp hu)

/-- A listing surface that always shows the two distinct canonical URLs
`"a"` and `"b"`. -/
def visTwo : Nat → List String := fun _ => ["a", "b"]

/-- Counterexample to C1 as stated: with target `N = 1` and an iteration
whose visible set holds 2 distinct canonical URLs not yet in the
Frontier, the post-iteration Frontier has size 2, not 1 — the loop
inserts every new URL before checking the cap, so the excess is inserted,
not dropped, and the Frontier size exceeds the target. -/
theorem collect_cap_overshoot_cex :
    (collect_all_urls visTwo 1).1.length = 2
    ∧ (collect_all_urls visTwo 1).2 = LoopOutcome.capped
    ∧ ¬ (collect_all_urls visTwo 1).1.length = 1 := by
  refine ⟨?_, ?_, ?_⟩ <;> decide

/-- Claim C1 (amended): if the target is `N` and a single iteration's
visible set contains more than `N` distinct canonical URLs not yet in the
Frontier, then after that iteration the Frontier's size strictly exceeds
`N` (every new visible URL is inserted; nothing is dropped), the loop
terminates in the `capped` outcome with that oversized Frontier, and the
URL list the phase returns — the Frontier enumeration truncated to
`max_campaigns` entries — has exactly `N` entries. -/
theorem collect_cap_truncates (visible : Nat → List String)
    (maxCampaigns fuel attempts noNewCount : Nat) (frontier : List String)
    (hlt : frontier.length < maxCampaigns)
    (hmany : maxCampaigns
      < (newUrls frontier (visible attempts)).dedup.length) :
    collectLoop visible maxCampaigns (fuel + 1) attempts noNewCount frontier
      = (addAll frontier (newUrls frontier (visible attempts)),
          LoopOutcome.capped)
    ∧ maxCampaigns
        < (addAll frontier (newUrls frontier (visible attempts))).length
    ∧ ((addAll frontier (newUrls frontier (visible attempts))).take
          maxCampaigns).length = maxCampaigns := by
  have hlen : maxCampaigns
      < (addAll frontier (newUrls frontier (visible attempts))).length :=
    lt_of_lt_of_le hmany (dedup_length_le_addAll _ _)
  refine ⟨?_, hlen, ?_⟩
  · simp only [collectLoop]
    rw [if_neg (by omega)]
    rw [if_pos (le_of_lt hlen)]
  · rw [List.length_take]
    omega

/-- A listing surface that always shows three distinct canonical URLs. -/
def visThree : Nat → List String := fun _ => ["a", "b", "c"]

/-- Witness for the amended C1: target 1, empty Frontier, 3 visible URLs. -/
theorem collect_cap_truncates_witness :
    ([] : List String).length < 1
    ∧ 1 < (newUrls [] (visThree 0)).dedup.length
    ∧ (collectLoop visThree 1 101 0 0 []
          = (addAll [] (newUrls [] (visThree 0)), LoopOutcome.capped)
        ∧ 1 < (addAll [] (newUrls [] (visThree 0))).length
        ∧ ((addAll [] (newUrls [] (visThree 0))).take 1).length = 1) :=
  ⟨by decide, by decide,
    collect_cap_truncates visThree 1 100 0 0 [] (by decide) (by decide)⟩

lemma collectLoop_noNew_step (visible : Nat → List String)
    (maxCampaigns fuel attempts noNewCount : Nat) (frontier : List String)
    (hlen : frontier.length < maxCampaigns)
    (h0 : newUrls frontier (visible attempts) = []) :
    collectLoop visible maxCampaigns (fuel + 1) attempts noNewCount frontier
      = if 3 ≤ noNewCount + 1 then (frontier, LoopOutcome.exhausted)
        else collectLoop visible maxCampaigns fuel (attempts + 1)
          (noNewCount + 1) frontier := by
  simp only [collectLoop]
  rw [if_neg (by omega)]
  simp only [h0, addAll_nil, List.isEmpty_nil, if_true]
  rw [if_neg (by omega)]

/-- Claim C2: in any run of the discovery loop, three consecutive
iterations each yielding zero new URLs (starting from any value of the
stagnation counter and any Frontier small enough for the loop to still be
running) terminate the loop in the `exhausted` outcome within exactly
those 3 stagnation iterations, with the Frontier unchanged — regardless
of the Frontier's size at that point. -/
theorem collect_stagnation_exhausts (visible : Nat → List String)
    (maxCampaigns fuel attempts noNewCount : Nat) (frontier : List String)
    (hlen : frontier.length < maxCampaigns)
    (h0 : newUrls frontier (visible attempts) = [])
    (h1 : newUrls frontier (visible (attempts + 1)) = [])
    (h2 : newUrls frontier (visible (attempts + 2)) = []) :
    collectLoop visible maxCampaigns (fuel + 3) attempts noNewCount frontier
      = (frontier, LoopOutcome.exhausted) := by
  have e1 := collectLoop_noNew_step visible maxCampaigns (fuel + 2)
    attempts noNewCount frontier hlen h0
  have e2 := collectLoop_noNew_step visible maxCampaigns (fuel + 1)
    (attempts + 1) (noNewCount + 1) frontier hlen h1
  have e3 := collectLoop_noNew_step visible maxCampaigns fuel
    (attempts + 2) (noNewCount + 2) frontier hlen h2
  have hfuel : fuel + 2 + 1 = fuel + 3 := by omega
  rw [hfuel] at e1
  rw [e1]
  by_cases hc1 : 3 ≤ noNewCount + 1
  · rw [if_pos hc1]
  · rw [if_neg hc1]
    rw [e2]
    by_cases hc2 : 3 ≤ noNewCount + 1 + 1
    · rw [if_pos hc2]
    · rw [if_neg hc2]
      have : noNewCount + 1 + 1 = noNewCount + 2 := by omega
      rw [this, e3, if_pos (by omega)]

/-- A listing surface that always shows exactly the single URL `"a"`. -/
def visOne : Nat → List String := fun _ => ["a"]

/-- Witness for C2: a Frontier already holding the only visible URL
stagnates for three iterations and exits `exhausted`. -/
theorem collect_stagnation_exhausts_witness :
    (["a"] : List String).length < 5
    ∧ newUrls ["a"] (visOne 0) = []
    ∧ newUrls ["a"] (visOne 1) = []
    ∧ newUrls ["a"] (visOne 2) = []
    ∧ collectLoop visOne 5 10 0 0 ["a"] = (["a"], LoopOutcome.exhausted) :=
  ⟨by decide, by decide, by decide, by decide,
    collect_stagnation_exhausts visOne 5 7 0 0 ["a"]
      (by decide) (by decide) (by decide) (by decide)⟩

/-! ## Frontier snapshot (`__init__` line 23, `collect_all_urls` line 172)

`self.campaign_urls` is a Python `set` (line 23), and the phase returns
`list(self.campaign_urls)[:max_campaigns]` (line 172).  Iterating a
Python `set` of strings yields its elements in a hash-table order the
language leaves unspecified; the only guarantee is that the listing is a
duplicate-free enumeration of exactly the set's elements.  `IsSetEnum
inserted enum` says that `enum` is such an admissible listing of the set
whose elements were inserted, first occurrence first, in the order given
by `inserted`. -/

def IsSetEnum (inserted enum : List String) : Prop :=
  enum.Perm inserted.dedup

instance (inserted enum : List String) :
    Decidable (IsSetEnum inserted enum) :=
  inferInstanceAs (Decidable (enum.Perm inserted.dedup))

/-- `list(self.campaign_urls)[:max_campaigns]` applied to one admissible
enumeration `enum` of the set (line 172). -/
def snapshot (enum : List String) (limit : Nat) : List String :=
  enum.take limit

/-- Counterexample to C5 as stated: the store is an unordered hash set,
so `["b", "a"]` is an admissible enumeration of the Frontier whose
elements were inserted in the order `"a"` then `"b"`, and the snapshot it
produces is not in insertion order. -/
theorem snapshot_insertion_order_cex :
    IsSetEnum ["a", "b"] ["b", "a"]
    ∧ ¬ snapshot ["b", "a"] 2 = ["a", "b"] := by
  refine ⟨?_, ?_⟩ <;> decide

/-- Claim C5 (amended): for every Frontier state and every limit, the
snapshot taken from any admissible enumeration of the Frontier set
returns at most `limit` entries, and every entry is an element of the
Frontier; the order of the entries is unspecified (the store is an
unordered set, so insertion order is not guaranteed). -/
theorem snapshot_le_limit (inserted enum : List String) (limit : Nat)
    (h : IsSetEnum inserted enum) :
    (snapshot enum limit).length ≤ limit
    ∧ ∀ u ∈ snapshot enum limit, u ∈ inserted := by
  constructor
  · simp [snapshot]
  · intro u hu
    have hmem : u ∈ enum := List.mem_of_mem_take hu
    exact List.mem_dedup.mp (h.mem_iff.mp hmem)

/-- Witness for the amended C5 at a concrete two-element Frontier with
limit 1. -/
theorem snapshot_le_limit_witness :
    IsSetEnum ["a", "b"] ["b", "a"]
    ∧ ((snapshot ["b", "a"] 1).length ≤ 1
        ∧ ∀ u ∈ snapshot ["b", "a"] 1, u ∈ (["a", "b"] : List String)) :=
  ⟨by decide, snapshot_le_limit ["a", "b"] ["b", "a"] 1 (by decide)⟩

/-! ## Age normalisation (`extract_days_running`, lines 181-220)

The three regular expressions of `extract_days_running` are modelled as
executable matchers over `List Char`.  `\d`, `\s` and `[A-Za-z]` are
taken at their ASCII fragment, which covers every character the patterns'
literals can be adjacent to in the pages' Latin text.  Greedy repetition
needs no backtracking in these patterns (each repeated class is disjoint
from what follows), except for the optional groups, which are expanded
into explicit alternatives in regex preference order. -/

/-- Python `\s` (ASCII fragment): space, tab, newline, vertical tab,
form feed, carriage return. -/
def isPySpace (c : Char) : Bool :=
  c = ' ' || (9 ≤ c.toNat && c.toNat ≤ 13)

/-- Consume a case-insensitive literal (given lowercased). -/
def dropLitCI : List Char → List Char → Option (List Char)
  | [], cs => some cs
  | _ :: _, [] => none
  | l :: ls, c :: cs => if c.toLower = l then dropLitCI ls cs else none

/-- Consume a case-sensitive literal. -/
def dropLit : List Char → List Char → Option (List Char)
  | [], cs => some cs
  | _ :: _, [] => none
  | l :: ls, c :: cs => if c = l then dropLit ls cs else none

/-- `\s+`: one or more whitespace characters, greedily. -/
def dropSpaces1 : List Char → Option (List Char)
  | c :: rest => if isPySpace c then some (rest.dropWhile isPySpace) else none
  | [] => none

/-- `(\d+)`: one or more digits, greedily, returning the captured run. -/
def takeDigits1 : List Char → Option (List Char × List Char)
  | c :: rest =>
      if c.isDigit
      then some (c :: rest.takeWhile Char.isDigit, rest.dropWhile Char.isDigit)
      else none
  | [] => none

/-- `([A-Za-z]+)`: one or more ASCII letters, greedily, with capture. -/
def takeAlpha1 : List Char → Option (List Char × List Char)
  | c :: rest =>
      if c.isAlpha
      then some (c :: rest.takeWhile Char.isAlpha, rest.dropWhile Char.isAlpha)
      else none
  | [] => none

/-- `(\d{4})`: exactly four digits (more may follow unconsumed). -/
def takeFourDigits : List Char → Option (List Char)
  | a :: b :: c :: d :: _ =>
      if a.isDigit && b.isDigit && c.isDigit && d.isDigit
      then some [a, b, c, d] else none
  | _ => none

/-- Match of `(\d+)\s*hrs?\s+ago` (IGNORECASE) anchored at the head of
the list (pattern 1, line 193). -/
def matchHrsAt (cs : List Char) : Bool :=
  match takeDigits1 cs with
  | none => false
  | some (_, r1) =>
    let r2 := r1.dropWhile isPySpace
    match dropLitCI ['h', 'r'] r2 with
    | none => false
    | some r3 =>
      let r4 := match dropLitCI ['s'] r3 with
        | some x => x
        | none => r3
      match dropSpaces1 r4 with
      | none => false
      | some r5 => (dropLitCI ['a', 'g', 'o'] r5).isSome

/-- `re.search` of pattern 1: some position matches. -/
def searchHrs : List Char → Bool
  | [] => false
  | c :: rest => matchHrsAt (c :: rest) || searchHrs rest

/-- Match of `(\d+)\s*d(?:ays?)?\s+ago` (IGNORECASE) anchored at the head
of the list, returning capture group 1 (pattern 2, line 197). -/
def matchDaysAt (cs : List Char) : Option (List Char) :=
  match takeDigits1 cs with
  | none => none
  | some (g, r1) =>
    let r2 := r1.dropWhile isPySpace
    match dropLitCI ['d'] r2 with
    | none => none
    | some r3 =>
      let tail := fun (r : List Char) =>
        match dropSpaces1 r with
        | some r5 => (dropLitCI ['a', 'g', 'o'] r5).isSome
        | none => false
      let ok :=
        (match dropLitCI ['a', 'y'] r3 with
         | some r4 =>
            (match dropLitCI ['s'] r4 with
             | some r4s => tail r4s
             | none => false)
            || tail r4
         | none => false)
        || tail r3
      if ok then some g else none

/-- `re.search` of pattern 2, leftmost match's group 1. -/
def searchDays : List Char → Option (List Char)
  | [] => none
  | c :: rest =>
      match matchDaysAt (c :: rest) with
      | some g => some g
      | none => searchDays rest

/-- Match of `Created\s+([A-Za-z]+)\s+(\d+)(?:st|nd|rd|th)?,?\s+(\d{4})`
(case-sensitive) anchored at the head of the list, returning the three
captures (pattern 3, line 202). -/
def matchCreatedAt (cs : List Char) :
    Option (List Char × List Char × List Char) :=
  match dropLit ['C', 'r', 'e', 'a', 't', 'e', 'd'] cs with
  | none => none
  | some r1 =>
    match dropSpaces1 r1 with
    | none => none
    | some r2 =>
      match takeAlpha1 r2 with
      | none => none
      | some (g1, r3) =>
        match dropSpaces1 r3 with
        | none => none
        | some r4 =>
          match takeDigits1 r4 with
          | none => none
          | some (g2, r5) =>
            let afterComma := fun (r7 : List Char) =>
              match dropSpaces1 r7 with
              | some r8 => takeFourDigits r8
              | none => none
            let finish := fun (r : List Char) =>
              match dropLit [','] r with
              | some r7 =>
                  match afterComma r7 with
                  | some g3 => some g3
                  | none => afterComma r
              | none => afterComma r
            let withSuffix :=
              match dropLit ['s', 't'] r5 with
              | some r6 => finish r6
              | none =>
                match dropLit ['n', 'd'] r5 with
                | some r6 => finish r6
                | none =>
                  match dropLit ['r', 'd'] r5 with
                  | some r6 => finish r6
                  | none =>
                    match dropLit ['t', 'h'] r5 with
                    | some r6 => finish r6
                    | none => none
            match withSuffix with
            | some g3 => some (g1, g2, g3)
            | none =>
              match finish r5 with
              | some g3 => some (g1, g2, g3)
              | none => none

/-- `re.search` of pattern 3, leftmost match's captures. -/
def searchCreated : List Char → Option (List Char × List Char × List Char)
  | [] => none
  | c :: rest =>
      match matchCreatedAt (c :: rest) with
      | some g => some g
      | none => searchCreated rest

/-- Numeric value of a digit run (`int` on a digit string). -/
def digitsVal (g : List Char) : Nat :=
  g.foldl (fun n c => n * 10 + (c.toNat - 48)) 0

/-- Gregorian leap-year rule, as used by `datetime`. -/
def isLeapYear (y : Nat) : Bool :=
  y % 4 = 0 && (y % 100 ≠ 0 || y % 400 = 0)

/-- Length of month `m` of year `y`. -/
def daysInMonth (y m : Nat) : Nat :=
  if m = 2 then (if isLeapYear y then 29 else 28)
  else if m = 4 ∨ m = 6 ∨ m = 9 ∨ m = 11 then 30 else 31

/-- Days in year `y` strictly before month `m`. -/
def daysBeforeMonth (y m : Nat) : Nat :=
  (List.range (m - 1)).foldl (fun acc i => acc + daysInMonth y (i + 1)) 0

/-- Proleptic-Gregorian day number of a date, the `date.toordinal` of
`datetime`: day 1 is January 1 of year 1. -/
def toOrdinal (y m d : Nat) : Nat :=
  365 * (y - 1) + (y - 1) / 4 - (y - 1) / 100 + (y - 1) / 400
    + daysBeforeMonth y m + d

/-- English month names recognised by `strptime`'s `%B`. -/
def monthNames : List (List Char × Nat) :=
  [("january".data, 1), ("february".data, 2), ("march".data, 3),
   ("april".data, 4), ("may".data, 5), ("june".data, 6),
   ("july".data, 7), ("august".data, 8), ("september".data, 9),
   ("october".data, 10), ("november".data, 11), ("december".data, 12)]

/-- `%B` month lookup: full English month name, case-insensitively. -/
def monthNumber (g : List Char) : Option Nat :=
  (monthNames.find? (fun p => decide (p.1 = g.map Char.toLower))).map
    (fun p => p.2)

/-- `datetime.strptime(f"{month} {day}, {year}", "%B %d, %Y")` followed
by `.toordinal()` (lines 208-212): succeeds when the month capture is a
full English month name, the day capture has the one- or two-digit shape
`%d` accepts with value between 1 and the month's length, and the
four-digit year is at least `datetime.MINYEAR = 1`; any other input
raises `ValueError`, modelled as `none`. -/
def strptimeBdY (mg dg yg : List Char) : Option Nat :=
  match monthNumber mg with
  | none => none
  | some m =>
    let y := digitsVal yg
    let d := digitsVal dg
    if 1 ≤ y then
      if dg.length ≤ 2 ∧ 1 ≤ d ∧ d ≤ daysInMonth y m
      then some (toOrdinal y m d)
      else none
    else none

/-- The fixed reference date `datetime(2025, 10, 26)` (line 211). -/
def todayOrdinal : Nat := toOrdinal 2025 10 26

/-- `extract_days_running` (lines 181-220) as a function of the page
text it scans: pattern 1 returns `'0'`, pattern 2 returns its first
capture verbatim, pattern 3 parses and returns
`str(days_diff) if days_diff >= 0 else 'Unknown'`, and every failing or
raising path returns `'Unknown'`. -/
def extract_days_running (text : List Char) : String :=
  if searchHrs text then "0"
  else
    match searchDays text with
    | some g => String.mk g
    | none =>
      match searchCreated text with
      | some (g1, g2, g3) =>
        match strptimeBdY g1 g2 g3 with
        | some ord =>
          let diff : Int := (todayOrdinal : Int) - (ord : Int)
          if 0 ≤ diff then diff.toNat.repr else "Unknown"
        | none => "Unknown"
      | none => "Unknown"

/-- Claim C3: on any text where the relative-hours pattern matches —
even one that also contains a parseable absolute date — rule order
decides: `extract_days_running` returns `"0"`, because the hours rule is
evaluated first and the first matching rule wins. -/
theorem hours_rule_wins (text g1 g2 g3 : List Char) (ord : Nat)
    (hhrs : searchHrs text = true)
    (hcreated : searchCreated text = some (g1, g2, g3))
    (hparse : strptimeBdY g1 g2 g3 = some ord) :
    extract_days_running text = "0" := by
  simp [extract_days_running, hhrs]

/-- Witness for C3: a text containing both `3 hrs ago` and the parseable
absolute date `Created May 5, 2024`. -/
theorem hours_rule_wins_witness :
    searchHrs "3 hrs ago Created May 5, 2024".data = true
    ∧ searchCreated "3 hrs ago Created May 5, 2024".data
        = some ("May".data, "5".data, "2024".data)
    ∧ strptimeBdY "May".data "5".data "2024".data
        = some (toOrdinal 2024 5 5)
    ∧ extract_days_running "3 hrs ago Created May 5, 2024".data = "0" :=
  ⟨by decide, by decide, by decide,
    hours_rule_wins "3 hrs ago Created May 5, 2024".data
      "May".data "5".data "2024".data (toOrdinal 2024 5 5)
      (by decide) (by decide) (by decide)⟩

/-! ## The ISO-8601 metadata path (`get_campaign_details`, lines 124-135
of `gofundme_scraper.py`)

`meta_created` carries the `article:published_time` content.  Parsing it
(`datetime.fromisoformat` after the `Z` replacement) is a library call
abstracted to its result: `none` when the tag is absent, `some none`
when parsing raises, `some (some created)` with `created` the parsed
naive timestamp.  Timestamps are integer seconds on a common clock;
`(datetime.now() - created).days` is the floor division of the signed
second difference by 86400, which is what `timedelta.days` computes. -/

inductive DaysField
  | days (n : Int)
  | unknown
  deriving DecidableEq, Repr

/-- `details['days_running']` as assigned by lines 124-135: the raw day
difference is stored whenever parsing succeeds, with no sign check. -/
def get_campaign_details_days (metaCreated : Option (Option Int))
    (now : Int) : DaysField :=
  match metaCreated with
  | some (some created) => DaysField.days (Int.fdiv (now - created) 86400)
  | some none => DaysField.unknown
  | none => DaysField.unknown

/-- Counterexample to C4 as stated: a machine-readable timestamp one day
in the future makes the ISO-8601 metadata path of `get_campaign_details`
store the negative number `-1`, not the Unknown sentinel. -/
theorem iso_negative_days_cex :
    get_campaign_details_days (some (some 86400)) 0 = DaysField.days (-1)
    ∧ DaysField.days (-1) ≠ DaysField.unknown
    ∧ (-1 : Int) < 0 := by
  refine ⟨?_, ?_, ?_⟩ <;> decide

/-- Claim C4 (amended): on the absolute-date path of
`extract_days_running`, a date signal that parses to a date after the
fixed reference `datetime(2025, 10, 26)` yields `"Unknown"`, never a
negative number; the ISO-8601 metadata path of `get_campaign_details`
performs the same day-difference computation but stores the raw result,
which is negative (never Unknown) for timestamps after `now`. -/
theorem future_dates_unknown (text g1 g2 g3 : List Char) (ord : Nat)
    (now created : Int)
    (hhrs : searchHrs text = false)
    (hdays : searchDays text = none)
    (hcreated : searchCreated text = some (g1, g2, g3))
    (hparse : strptimeBdY g1 g2 g3 = some ord)
    (hfut : todayOrdinal < ord)
    (hfut2 : now < created) :
    extract_days_running text = "Unknown"
    ∧ get_campaign_details_days (some (some created)) now
        = DaysField.days (Int.fdiv (now - created) 86400)
    ∧ Int.fdiv (now - created) 86400 < 0 := by
  refine ⟨?_, rfl, ?_⟩
  · simp only [extract_days_running, hhrs, if_false, hdays, hcreated,
      hparse, Bool.false_eq_true]
    rw [if_neg]
    omega
  · rw [Int.fdiv_eq_ediv _ (by norm_num)]
    exact Int.ediv_neg' (by omega) (by norm_num)

/-- Witness for the amended C4: the future date `Created May 5, 2030`
and a metadata timestamp one day after `now`. -/
theorem future_dates_unknown_witness :
    searchHrs "Created May 5, 2030".data = false
    ∧ searchDays "Created May 5, 2030".data = none
    ∧ searchCreated "Created May 5, 2030".data
        = some ("May".data, "5".data, "2030".data)
    ∧ strptimeBdY "May".data "5".data "2030".data
        = some (toOrdinal 2030 5 5)
    ∧ todayOrdinal < toOrdinal 2030 5 5
    ∧ (0 : Int) < 86400
    ∧ (extract_days_running "Created May 5, 2030".data = "Unknown"
        ∧ get_campaign_details_days (some (some 86400)) 0
            = DaysField.days (Int.fdiv (0 - 86400) 86400)
        ∧ Int.fdiv ((0 : Int) - 86400) 86400 < 0) :=
  ⟨by decide, by decide, by decide, by decide, by decide, by decide,
    future_dates_unknown "Created May 5, 2030".data
      "May".data "5".data "2030".data (toOrdinal 2030 5 5) 0 86400
      (by decide) (by decide) (by decide) (by decide) (by decide)
      (by decide)⟩

/-! ## Description extraction (`get_campaign_details`, lines 96-111 of
`gofundme_scraper.py`)

The JSON-LD lookup is abstracted to its result: `none` when no
`application/ld+json` script element exists, `some none` when
`json.loads` raises, and `some (some s)` when it parses, with `s` the
value of `structured_data.get('description', '')` (so `s = ""` when the
parsed object has no description field).  `descElem` is the stripped
text of the description/story-classed element, when one exists. -/

/-- `details['description']` as assigned by lines 96-111: the JSON-LD
value is kept verbatim when truthy; otherwise the fallback element text
is truncated to 500 characters; otherwise the empty string. -/
def extractDescription (jsonLd : Option (Option String))
    (descElem : Option String) : String :=
  let viaJson : String :=
    match jsonLd with
    | some (some s) => s
    | _ => ""
  if viaJson = "" then
    match descElem with
    | some t => t.take 500
    | none => ""
  else viaJson

/-- Claim C7: a description obtained from the embedded JSON metadata is
returned exactly as given, with no truncation — in particular
`{"description": "Help Max recover"}` yields exactly
`"Help Max recover"` — while the plain-element fallback path is the only
one that truncates, to 500 characters. -/
theorem json_description_untruncated (s t : String)
    (descElem : Option String) (hs : s ≠ "") :
    extractDescription (some (some s)) descElem = s
    ∧ extractDescription (some (some "Help Max recover")) descElem
        = "Help Max recover"
    ∧ extractDescription none (some t) = t.take 500
    ∧ (extractDescription none (some t)).length ≤ 500 := by
  have hjson : ∀ (s2 : String), s2 ≠ "" →
      extractDescription (some (some s2)) descElem = s2 := by
    intro s2 hs2
    cases descElem with
    | none =>
        show (if s2 = "" then "" else s2) = s2
        rw [if_neg hs2]
    | some t2 =>
        show (if s2 = "" then t2.take 500 else s2) = s2
        rw [if_neg hs2]
  have htake : extractDescription none (some t) = t.take 500 := by
    show (if ("" : String) = "" then t.take 500 else "") = t.take 500
    rw [if_pos rfl]
  refine ⟨hjson s hs, hjson "Help Max recover" (by simp), htake, ?_⟩
  rw [htake, String.take_eq]
  exact List.length_take_le 500 t.data

/-- Witness for C7: a 600-character JSON-LD description survives
unclipped, and a 600-character fallback text is cut to 500. -/
theorem json_description_untruncated_witness :
    String.mk (List.replicate 600 'a') ≠ ""
    ∧ (extractDescription (some (some (String.mk (List.replicate 600 'a'))))
          (some (String.mk (List.replicate 600 'b')))
        = String.mk (List.replicate 600 'a')
      ∧ extractDescription (some (some "Help Max recover"))
          (some (String.mk (List.replicate 600 'b')))
        = "Help Max recover"
      ∧ extractDescription none (some (String.mk (List.replicate 600 'b')))
        = (String.mk (List.replicate 600 'b')).take 500
      ∧ (extractDescription none
          (some (String.mk (List.replicate 600 'b')))).length ≤ 500) :=
  ⟨by simp,
    json_description_untruncated (String.mk (List.replicate 600 'a'))
      (String.mk (List.replicate 600 'b'))
      (some (String.mk (List.replicate 600 'b'))) (by simp)⟩

/-! ## Detail loop (`extract_all_details`, lines 297-324)

`extract_campaign_details` always returns a complete record — its outer
exception handler builds the default record of lines 289-295 — so the
per-URL extraction is abstracted as a total function
`details : String → CampaignData`.  A `KeyboardInterrupt` is cooperative
and lands at an iteration boundary; `cancelAt = some k` means the signal
arrives at the start of iteration `k` (0-based), after `k` records have
been appended.  The `except KeyboardInterrupt` handler (lines 317-318)
stops the loop and keeps `self.campaigns` as accumulated. -/

structure CampaignData where
  url : String
  image_url : String
  amount_raised : String
  description : String
  days_running : String
  deriving DecidableEq, Repr

/-- The degraded record built by the exception path of
`extract_campaign_details` (lines 289-295). -/
def defaultRecord (u : String) : CampaignData :=
  { url := u, image_url := "", amount_raised := "0", description := "",
    days_running := "Unknown" }

/-- The `for i, url in enumerate(urls, 1)` loop body of
`extract_all_details` with the interrupt landing at iteration `cancelAt`. -/
def detailLoopAux (details : String → CampaignData) (cancelAt : Option Nat) :
    List String → Nat → List CampaignData → List CampaignData
  | [], _, acc => acc
  | url :: rest, i, acc =>
      if cancelAt = some i then acc
      else detailLoopAux details cancelAt rest (i + 1) (acc ++ [details url])

/-- `extract_all_details(urls)`: the records accumulated in
`self.campaigns` when the loop ends, normally or by interruption. -/
def extract_all_details (details : String → CampaignData)
    (cancelAt : Option Nat) (urls : List String) : List CampaignData :=
  detailLoopAux details cancelAt urls 0 []

lemma detailLoopAux_cancel (details : String → CampaignData) (k : Nat) :
    ∀ (urls : List String) (i : Nat) (acc : List CampaignData), i ≤ k →
      detailLoopAux details (some k) urls i acc
        = acc ++ (urls.take (k - i)).map details := by
  intro urls
  induction urls with
  | nil => intro i acc _; simp [detailLoopAux]
  | cons u rest ih =>
      intro i acc hik
      by_cases hk : i = k
      · subst hk
        simp [detailLoopAux]
      · have hlt : i < k := lt_of_le_of_ne hik hk
        have hne : ¬ (some k = some i) := by
          intro hE; exact hk (Option.some.injEq _ _ ▸ hE).symm
        simp only [detailLoopAux, if_neg hne]
        rw [ih (i + 1) (acc ++ [details u]) (by omega)]
        have hk1 : k - i = (k - (i + 1)) + 1 := by omega
        rw [hk1, List.take_succ_cons]
        simp

/-- Claim C8: interrupting the Detail Loop at the boundary after `k` of
the `n` URLs have been processed yields exactly `k` records — one per
processed URL, in processing order, each the full record the extractor
built for it — and those partial results are returned, not discarded. -/
theorem detail_loop_partial_salvage (details : String → CampaignData)
    (urls : List String) (k : Nat) (hk : k ≤ urls.length) :
    extract_all_details details (some k) urls = (urls.take k).map details
    ∧ (extract_all_details details (some k) urls).length = k := by
  have heq : extract_all_details details (some k) urls
      = (urls.take k).map details := by
    show detailLoopAux details (some k) urls 0 [] = (urls.take k).map details
    rw [detailLoopAux_cancel details k urls 0 [] (Nat.zero_le k)]
    simp
  refine ⟨heq, ?_⟩
  rw [heq, List.length_map, List.length_take]
  omega

/-- Witness for C8: interrupting after 2 of 3 URLs keeps exactly the
records of the first two, in order. -/
theorem detail_loop_partial_salvage_witness :
    2 ≤ (["a", "b", "c"] : List String).length
    ∧ (extract_all_details defaultRecord (some 2) ["a", "b", "c"]
          = ((["a", "b", "c"] : List String).take 2).map defaultRecord
        ∧ (extract_all_details defaultRecord (some 2)
            ["a", "b", "c"]).length = 2) :=
  ⟨by decide,
    detail_loop_partial_salvage defaultRecord ["a", "b", "c"] 2 (by decide)⟩

/-! ## Enrichment adapter (`image_analyzer.py`, lines 153-164 and
166-219)

`ClassifierResult` is restricted to the fields the adapter's control
flow writes; the external capability (`analyze_image_google`) is a
parameter `callClassifier`, and each processing function also reports
whether that capability was invoked. -/

structure ClassifierResult where
  success : Bool
  error : Option String
  deriving DecidableEq, Repr

/-- `analyze_image` (lines 153-164): the guard
`if not image_url or not image_url.startswith('http')` short-circuits
with an `Invalid image URL` failure before any external call; otherwise
the external capability is invoked.  The second component records
whether the invocation happened. -/
def analyze_image (callClassifier : String → ClassifierResult)
    (image_url : String) : ClassifierResult × Bool :=
  if image_url = "" || ¬ image_url.startsWith "http"
  then ({ success := false, error := some "Invalid image URL" }, false)
  else (callClassifier image_url, true)

/-- The per-campaign body of `process_campaigns` (lines 181-195): an
empty `image_url` is skipped with a `No image URL` failure (lines
184-189) before `analyze_image` is even called. -/
def process_one (callClassifier : String → ClassifierResult)
    (image_url : String) : ClassifierResult × Bool :=
  if image_url = ""
  then ({ success := false, error := some "No image URL" }, false)
  else analyze_image callClassifier image_url

/-- `process_campaigns` over the campaigns' image URLs: the stored
`image_analysis` results paired with their URLs, together with the list
of URLs actually sent to the external capability. -/
def process_campaigns (callClassifier : String → ClassifierResult) :
    List String → List (String × ClassifierResult) × List String
  | [] => ([], [])
  | u :: rest =>
      let r := process_one callClassifier u
      let tailRes := process_campaigns callClassifier rest
      ((u, r.1) :: tailRes.1, (if r.2 then [u] else []) ++ tailRes.2)

/-- Claim C9: a record with an empty `image_url` never reaches the
external classifier capability — its stored result has
`success = false` with the error message `"No image URL"` naming the
missing image URL, and across a whole run no external call is ever made
with the empty URL. -/
theorem no_image_url_skips_classifier
    (callClassifier : String → ClassifierResult) (urls : List String) :
    process_one callClassifier ""
      = ({ success := false, error := some "No image URL" }, false)
    ∧ "" ∉ (process_campaigns callClassifier urls).2 := by
  constructor
  · rfl
  · induction urls with
    | nil => simp [process_campaigns]
    | cons u rest ih =>
        simp only [process_campaigns]
        intro hmem
        rcases List.mem_append.mp hmem with h1 | h1
        · by_cases hu : u = ""
          · subst hu
            rw [show (process_one callClassifier "").2 = false from rfl] at h1
            simp at h1
          · split at h1
            · rcases List.mem_singleton.mp h1 with rfl
              exact hu rfl
            · simp at h1
        · exact ih h1

/-! ## Amount extraction (`extract_campaign_details`, lines 242-251)

`re.findall(r'\$[\d,]+', page_text)` scans left to right; at each `'$'`
followed by at least one digit-or-comma it consumes the maximal such run
(no later element of the pattern can force backtracking) and continues
after it.  The scan is written with a fuel argument — one unit per
character, so `text.length` always suffices — to keep the recursion
structural and hence kernel-evaluable. -/

/-- A character of the class `[\d,]`. -/
def isAmountChar (c : Char) : Bool := c.isDigit || c = ','

/-- The non-overlapping matches of `\$[\d,]+`, each returned without its
leading `'$'` (the `int(a.replace('$', '') ...)` step removes it). -/
def findAmountsAux : Nat → List Char → List (List Char)
  | 0, _ => []
  | _ + 1, [] => []
  | fuel + 1, c :: rest =>
      if c = '$' then
        let run := rest.takeWhile isAmountChar
        if run.isEmpty then findAmountsAux fuel rest
        else run :: findAmountsAux fuel (rest.drop run.length)
      else findAmountsAux fuel rest

def findAmounts (text : List Char) : List (List Char) :=
  findAmountsAux text.length text

/-- `int(a.replace('$', '').replace(',', ''))` on a `[\d,]+` run with at
least one digit: the decimal value of its digits. -/
def tokenVal (t : List Char) : Nat := digitsVal (t.filter Char.isDigit)

/-- `data['amount_raised']` as computed by lines 242-251: `'0'` when
there is no match; otherwise the whole `try` block fails with
`ValueError` — degrading to `'0'` — as soon as any match holds no digit
(`int('')`); otherwise the decimal string of the maximum value. -/
def amount_raised (text : List Char) : String :=
  let amounts := findAmounts text
  if amounts.isEmpty then "0"
  else if amounts.any (fun t => (t.filter Char.isDigit).isEmpty) then "0"
  else Nat.repr ((amounts.map tokenVal).foldl Nat.max 0)

/-- Modelled from the claim's words, for comparison with the code: the
maximum over all "$digits" tokens — the `\$[\d,]+` matches containing at
least one digit — with commas removed, as a decimal string, `'0'` when
no such token exists. -/
def claimedAmountRaised (text : List Char) : String :=
  let toks := (findAmounts text).filter
    (fun t => !(t.filter Char.isDigit).isEmpty)
  if toks.isEmpty then "0"
  else Nat.repr ((toks.map tokenVal).foldl Nat.max 0)

/-- Counterexample to C10 as stated: on the page text `"$9 $,"` the
digit-bearing token `$9` exists, so the claimed value is `"9"`, but the
comma-only match `"$,"` makes `int('')` raise and the code stores
`"0"`. -/
theorem amount_raised_cex :
    amount_raised "$9 $,".data = "0"
    ∧ claimedAmountRaised "$9 $,".data = "9"
    ∧ ¬ amount_raised "$9 $,".data = claimedAmountRaised "$9 $,".data := by
  refine ⟨?_, ?_, ?_⟩ <;> decide

/-- Claim C10 (amended): whenever every `\$[\d,]+` match in the page
text contains at least one digit, `amount_raised` is exactly the maximum
over all those tokens of their comma-stripped decimal values, as a
decimal string, and it is `"0"` when no token exists; if some match
contains no digit, the integer-conversion error degrades the whole
computation to `"0"`. -/
theorem amount_raised_is_max (text text2 : List Char)
    (h : ∀ t ∈ findAmounts text, ¬ (t.filter Char.isDigit).isEmpty = true)
    (hbad : ∃ t ∈ findAmounts text2, (t.filter Char.isDigit).isEmpty = true) :
    amount_raised text = claimedAmountRaised text
    ∧ (findAmounts text = [] → amount_raised text = "0")
    ∧ amount_raised text2 = "0" := by
  have hfilter : (findAmounts text).filter
      (fun t => !(t.filter Char.isDigit).isEmpty) = findAmounts text := by
    apply List.filter_eq_self.mpr
    intro t ht
    simpa using h t ht
  have hany : (findAmounts text).any
      (fun t => (t.filter Char.isDigit).isEmpty) = false := by
    apply List.any_eq_false.mpr
    intro t ht
    exact h t ht
  refine ⟨?_, ?_, ?_⟩
  · simp only [amount_raised, claimedAmountRaised, hfilter, hany,
      Bool.false_eq_true, if_false]
  · intro hnil
    simp [amount_raised, hnil]
  · rcases hbad with ⟨t, ht, hd⟩
    have hne : (findAmounts text2).isEmpty = false := by
      cases hfa : findAmounts text2 with
      | nil => rw [hfa] at ht; simp at ht
      | cons a l => simp
    have hany2 : (findAmounts text2).any
        (fun t => (t.filter Char.isDigit).isEmpty) = true :=
      List.any_eq_true.mpr ⟨t, ht, hd⟩
    simp only [amount_raised, hne, hany2, Bool.false_eq_true, if_false,
      if_true]

/-- Witness for the amended C10 on the spec's own scenario text
`"$1,250 raised"` (plus a second `$3` figure), against `"$,"` for the
degraded branch. -/
theorem amount_raised_is_max_witness :
    (∀ t ∈ findAmounts "$1,250 raised $3".data,
      ¬ (t.filter Char.isDigit).isEmpty = true)
    ∧ (∃ t ∈ findAmounts "$,".data,
        (t.filter Char.isDigit).isEmpty = true)
    ∧ (amount_raised "$1,250 raised $3".data
          = claimedAmountRaised "$1,250 raised $3".data
        ∧ (findAmounts "$1,250 raised $3".data = []
            → amount_raised "$1,250 raised $3".data = "0")
        ∧ amount_raised "$,".data = "0") :=
  ⟨by decide, by decide,
    amount_raised_is_max "$1,250 raised $3".data "$,".data
      (by decide) (by decide)⟩
